import Mathlib

/-!
Verification of the Tocino repository sources: the address-encoding utility
`src/tocino/model/tocino-address.h` (fully implemented inline) and the
netanim trace-correlation subsystem declared in
`src/netanim/model/animation-interface.h`.  The netanim member functions are
only declared in the repository (no .cc file is present), so their bodies are
modelled from the specification, as marked on each such definition.
-/

/-! ## Tocino address utility (tocino-address.h, inline implementations) -/

/-- The `m_address` union of `TocinoAddress`: four bytes `x, y, z, reserved`
overlaid on a `uint32_t raw`.  We keep the raw 32-bit value; the byte
components are projections (little-endian overlay: `x` is the lowest byte). -/
structure TocinoAddress where
  raw : Nat
  deriving DecidableEq, Repr

def tocinoX (a : TocinoAddress) : Nat := a.raw % 256

def tocinoY (a : TocinoAddress) : Nat := a.raw / 256 % 256

def tocinoZ (a : TocinoAddress) : Nat := a.raw / 65536 % 256

def tocinoReserved (a : TocinoAddress) : Nat := a.raw / 16777216 % 256

/-- The generic ns-3 `Address`: a registered type byte plus the copied raw
bytes of the address. -/
structure Ns3Address where
  typ : Nat
  bytes : List Nat
  deriving DecidableEq, Repr

/-- The type id produced by `Address::Register()` in `TocinoAddress::GetType`;
its concrete value is irrelevant, only that both conversion directions use the
same one. -/
def tocinoAddressType : Nat := 1

/-- The four memory bytes of `m_address.raw`, lowest-address byte first
(little-endian host layout), as read by the `reinterpret_cast` in
`ConvertTo`. -/
def rawBytesLE (raw : Nat) : List Nat :=
  [raw % 256, raw / 256 % 256, raw / 65536 % 256, raw / 16777216 % 256]

/-- Reassembling a `uint32_t` from its four memory bytes, as done by
`Address::CopyTo` writing into `ta.m_address.raw` in `ConvertFrom`. -/
def bytesToRawLE : List Nat → Nat
  | [b0, b1, b2, b3] => b0 + 256 * b1 + 65536 * b2 + 16777216 * b3
  | _ => 0

/-- `TocinoAddress::ConvertTo`: builds an `Address` from the registered type,
the raw bytes of `m_address`, and `sizeof(m_address) = 4`. -/
def tocinoConvertTo (a : TocinoAddress) : Ns3Address :=
  { typ := tocinoAddressType, bytes := rawBytesLE a.raw }

/-- `Address::CheckCompatible`, asserted by `ConvertFrom`: the generic address
carries the expected registered type and byte length. -/
def checkCompatible (ad : Ns3Address) (t len : Nat) : Bool :=
  ad.typ == t && ad.bytes.length == len

/-- `TocinoAddress::ConvertFrom`: asserts compatibility, then copies the four
bytes back into `ta.m_address.raw`.  The `NS_ASSERT` failure branch is an
`Option.none`. -/
def tocinoConvertFrom (ad : Ns3Address) : Option TocinoAddress :=
  if checkCompatible ad tocinoAddressType 4 then
    some { raw := bytesToRawLE ad.bytes }
  else
    none

/-- An ns-3 `Mac48Address`, identified with its 48-bit value. -/
structure Mac48Address where
  value : Nat
  deriving DecidableEq, Repr

/-- `TocinoAddress::AsMacAddress`: the body is `return Mac48Address(0);`
(a stub marked FIXME) and never reads `m_address`. -/
def tocinoAsMacAddress (_ : TocinoAddress) : Mac48Address :=
  { value := 0 }

/-! ## Animation interface configuration (animation-interface.h lines 55, 97-99) -/

/-- The `MAX_PKTS_PER_TRACE_FILE` macro (line 55 of the header). -/
def MAX_PKTS_PER_TRACE_FILE : Nat := 100000

/-- The configuration fields of `AnimationInterface` set by the file-name
constructor. -/
structure AnimConfig where
  m_outputFileName : String
  m_maxPktsPerFile : Nat
  m_xml : Bool
  deriving DecidableEq, Repr

/-- The file-name constructor
`AnimationInterface (filename, maxPktsPerFile, usingXML)` with all arguments
supplied explicitly. -/
def mkAnimationInterface (filename : String) (maxPktsPerFile : Nat)
    (usingXML : Bool) : AnimConfig :=
  { m_outputFileName := filename
    m_maxPktsPerFile := maxPktsPerFile
    m_xml := usingXML }

/-- The same constructor invoked with only a file name, taking the declared
default arguments `maxPktsPerFile = MAX_PKTS_PER_TRACE_FILE` and
`usingXML = true` (header lines 97-99). -/
def mkAnimationInterfaceDefault (filename : String) : AnimConfig :=
  mkAnimationInterface filename MAX_PKTS_PER_TRACE_FILE true

/-! ## Correlation-token tagging (spec-modelled) -/

/-- A packet instance, carrying the optional `AnimByteTag` correlation token;
the tag is propagated through any internal copy of the packet object. -/
structure Packet where
  animUidTag : Option Nat
  deriving DecidableEq, Repr

/-- The process-wide tagging state: the `gAnimUid` counter
(animation-interface.h line 307). -/
structure TagState where
  gAnimUid : Nat
  deriving DecidableEq, Repr

/-- Modelled from the spec: the bodies of `GetAnimUidFromPacket` and the
tagging done in the Tx trace callbacks are declared in the header but not
defined in the repository.  Spec section 4.1: if the packet already carries a
token, return it; otherwise allocate the next value from a process-wide
monotonically increasing counter, attach it to the packet, and return it.
Returns (token, packet after tagging, state after tagging). -/
def tagPacket (s : TagState) (p : Packet) : Nat × Packet × TagState :=
  match p.animUidTag with
  | some t => (t, p, s)
  | none =>
      let t := s.gAnimUid + 1
      (t, { animUidTag := some t }, { gAnimUid := t })

/-- Duplication of a packet object for broadcast fan-out: the byte tag is
copied with the packet. -/
def duplicatePacket (p : Packet) : Packet :=
  { animUidTag := p.animUidTag }

/-- The tokens freshly allocated while tagging a sequence of packet instances
in order (already-tagged packets allocate nothing). -/
def runTagSession : TagState → List Packet → List Nat
  | _, [] => []
  | s, p :: ps =>
      let r := tagPacket s p
      match p.animUidTag with
      | some _ => runTagSession r.2.2 ps
      | none => r.1 :: runTagSession r.2.2 ps

/-! ## Correlation engine: pending tables and emitted output (spec-modelled) -/

/-- A record in the emitted output stream: transmit-side (`packet`/`wpacket`)
or receive-side (`rx`), carrying the correlation token. -/
inductive TraceRec where
  | txRec (t : Nat)
  | rxRec (t : Nat)
  deriving DecidableEq, Repr

/-- An event the simulation engine can deliver to one pending table: a
transmit notification, a receive notification, or a purge removing the
pending entry of one token. -/
inductive TraceEvent where
  | txEvent (t : Nat)
  | rxEvent (t : Nat)
  | purgeEvent (t : Nat)
  deriving DecidableEq, Repr

/-- The state of one category: the set of pending tokens and the output
emitted so far (appended at the end, write-once). -/
structure EngineState where
  pending : List Nat
  output : List TraceRec
  deriving DecidableEq, Repr

/-- Modelled from the spec: the bodies of the trace callbacks,
`AddPending*Packet`, `*PacketIsPending`, `OutputWirelessPacket` and
`OutputCsmaPacket` are declared in the header but not defined in the
repository.  Spec sections 4.1, 4.2 and 7: a transmit records a pending entry
and emits the transmit record unless the token is already pending (duplicate
transmit: logged, dropped); a receive emits a receive-match record only if the
token is pending (broadcast semantics keep the entry); an unmatched receive is
dropped; a purge removes a pending entry without emitting. -/
def engineStep (st : EngineState) (e : TraceEvent) : EngineState :=
  match e with
  | .txEvent t =>
      if t ∈ st.pending then st
      else { pending := t :: st.pending, output := st.output ++ [.txRec t] }
  | .rxEvent t =>
      if t ∈ st.pending then { st with output := st.output ++ [.rxRec t] }
      else st
  | .purgeEvent t =>
      { st with pending := st.pending.filter (fun u => u ≠ t) }

/-- The engine started from an empty session and driven by a list of events. -/
def engineRun (evs : List TraceEvent) : EngineState :=
  evs.foldl engineStep { pending := [], output := [] }

/-- Causal ordering of an output stream: every receive-match record is
preceded by a transmit record carrying the same token. -/
def causalOk (out : List TraceRec) : Prop :=
  ∀ (i t : Nat), out[i]? = some (TraceRec.rxRec t) →
    ∃ j : Nat, j < i ∧ out[j]? = some (TraceRec.txRec t)

/-- The engine invariant: every pending token already has its transmit record
in the output, and the output is causally ordered. -/
def engineInv (st : EngineState) : Prop :=
  (∀ t ∈ st.pending, TraceRec.txRec t ∈ st.output) ∧ causalOk st.output

/-! ## Purge policy (spec-modelled) -/

/-- Transmit-side metadata held in a pending table (`AnimPacketInfo`):
token, origin node, and the transmit time in integer simulated-time ticks. -/
structure PendingRecord where
  token : Nat
  originNodeId : Nat
  transmitTime : Int
  deriving DecidableEq, Repr

/-- Modelled from the spec: `PurgePendingWifi/Wimax/Lte/Csma` are declared in
the header (lines 396-399) but not defined in the repository.  Spec section
4.2: Purge(maxAge) removes every PendingRecord whose transmitTime is older
than (currentTime - maxAge), i.e. whose age now - transmitTime exceeds
maxAge; all other entries are kept. -/
def purgePending (now maxAge : Int) (table : List PendingRecord) :
    List PendingRecord :=
  table.filter (fun r => decide (now - r.transmitTime ≤ maxAge))

/-! ## Time-window gating (spec-modelled) -/

/-- Modelled from the spec: `IsInTimeWindow` is declared in the header (line
409) but not defined in the repository.  Spec section 4.4: every write is
suppressed unless the current simulated time lies in [startTime, stopTime]
inclusive. -/
def isInTimeWindow (now startTime stopTime : Int) : Bool :=
  decide (startTime ≤ now) && decide (now ≤ stopTime)

/-- A single gated write: the record reaches the output only when the current
simulated time is inside the capture window. -/
def writeGated (now startTime stopTime : Int) (r : TraceRec) :
    Option TraceRec :=
  if isInTimeWindow now startTime stopTime then some r else none

/-! ## Duplicate-transmit handling on one pending table (spec-modelled) -/

/-- Modelled from the spec: `AddPendingWifiPacket` and its Wimax/Lte/Csma
siblings are declared in the header (lines 370-384) but not defined in the
repository.  Spec sections 4.2 and 7: RecordTransmit is a no-op (logged) if
an entry for the token already exists; the existing pending entry is
retained and the new record is dropped. -/
def addPendingPacket (animUid : Nat) (info : PendingRecord)
    (table : List (Nat × PendingRecord)) : List (Nat × PendingRecord) :=
  if (table.lookup animUid).isSome then table else (animUid, info) :: table

/-! ## File rotation (spec-modelled) -/

/-- The writer state behind `StartNewTraceFile`, `m_currentPktCount`,
`m_maxPktsPerFile` and `m_originalFileName`: the current file index, the
packet records written to the current file, and the files already closed
(with their closing markers written), each with its packet-record count. -/
structure WriterState where
  originalFileName : String
  maxPktsPerFile : Nat
  fileIndex : Nat
  currentPktCount : Nat
  closedFiles : List (String × Nat)
  deriving DecidableEq, Repr

/-- The name of the trace file with the given index: the base name for index
0, then base-1, base-2, and so on. -/
def traceFileName (base : String) (idx : Nat) : String :=
  if idx = 0 then base else base ++ "-" ++ toString idx

/-- Modelled from the spec: `StartNewTraceFile` and the packet-write path are
declared in the header (lines 416-418) but not defined in the repository.
Spec section 4.4: the running counter of emitted packet records is compared
against the configured maximum per file; on reaching the threshold the
current file is closed (closing markers first), a new file with the next
suffixed name is opened, the counter is reset to zero, and the packet record
is then written to the fresh file. -/
def writePacketRecord (w : WriterState) : WriterState :=
  if w.maxPktsPerFile ≤ w.currentPktCount then
    { w with
      fileIndex := w.fileIndex + 1
      currentPktCount := 1
      closedFiles := w.closedFiles ++
        [(traceFileName w.originalFileName w.fileIndex, w.currentPktCount)] }
  else
    { w with currentPktCount := w.currentPktCount + 1 }

/-! ## Position tracker (spec-modelled) -/

/-- A node coordinate triple (integer simulated coordinates). -/
structure Vec3 where
  x : Int
  y : Int
  z : Int
  deriving DecidableEq, Repr

/-- The failure of a position query. -/
inductive PosError where
  | missingPosition
  deriving DecidableEq, Repr

/-- The topology bounding box (`m_topoMinX` .. `m_topoMaxY`). -/
structure TopoBounds where
  minX : Int
  minY : Int
  maxX : Int
  maxY : Int
  deriving DecidableEq, Repr

/-- Modelled from the spec: the pseudo-random fallback position is drawn
within the current topology bounds; the random source is modelled as two
supplied naturals reduced into the bound ranges. -/
def synthesizePosition (b : TopoBounds) (rx ry : Nat) : Vec3 :=
  { x := b.minX + ((rx % ((b.maxX - b.minX).toNat + 1) : Nat) : Int)
    y := b.minY + ((ry % ((b.maxY - b.minY).toNat + 1) : Nat) : Int)
    z := 0 }

/-- Modelled from the spec: `GetPosition` is declared in the header (line
389) but not defined in the repository.  Spec section 4.3: return the cached
position if present; if absent and random-fallback is enabled, synthesize a
pseudo-random position within current topology bounds, cache it and return
it; if absent and random-fallback is disabled, fail with a MissingPosition
error.  Returns the position together with the updated cache. -/
def getPosition (cache : List (Nat × Vec3)) (randomPosition : Bool)
    (b : TopoBounds) (rx ry : Nat) (nodeId : Nat) :
    Except PosError (Vec3 × List (Nat × Vec3)) :=
  match cache.lookup nodeId with
  | some v => .ok (v, cache)
  | none =>
      if randomPosition then
        let v := synthesizePosition b rx ry
        .ok (v, (nodeId, v) :: cache)
      else
        .error .missingPosition

/-! ## Helper lemmas -/

theorem runTagSession_gt (ps : List Packet) :
    ∀ s : TagState, ∀ t ∈ runTagSession s ps, s.gAnimUid < t := by
  induction ps with
  | nil =>
      intro s t ht
      simp [runTagSession] at ht
  | cons p ps ih =>
      intro s t ht
      cases hp : p.animUidTag with
      | some u =>
          rw [runTagSession, hp] at ht
          simp only [tagPacket, hp] at ht
          exact ih s t ht
      | none =>
          rw [runTagSession, hp] at ht
          simp only [tagPacket, hp, List.mem_cons] at ht
          rcases ht with h | h
          · omega
          · have := ih { gAnimUid := s.gAnimUid + 1 } t h
            simp only at this
            omega

theorem runTagSession_nodup (ps : List Packet) :
    ∀ s : TagState, (runTagSession s ps).Nodup := by
  induction ps with
  | nil =>
      intro s
      simp [runTagSession]
  | cons p ps ih =>
      intro s
      cases hp : p.animUidTag with
      | some u =>
          rw [runTagSession, hp]
          simp only [tagPacket, hp]
          exact ih s
      | none =>
          rw [runTagSession, hp]
          simp only [tagPacket, hp]
          refine List.nodup_cons.mpr ⟨?_, ih _⟩
          intro hmem
          have := runTagSession_gt ps { gAnimUid := s.gAnimUid + 1 } _ hmem
          simp only at this
          omega

theorem causalOk_concat (out : List TraceRec) (r : TraceRec)
    (hc : causalOk out) (hr : ∀ t, r = .rxRec t → TraceRec.txRec t ∈ out) :
    causalOk (out ++ [r]) := by
  unfold causalOk at hc ⊢
  intro i t hi
  by_cases hlen : i < out.length
  · rw [List.getElem?_append_left hlen] at hi
    obtain ⟨j, hj, hjt⟩ := hc i t hi
    exact ⟨j, hj, by rw [List.getElem?_append_left (lt_trans hj hlen)]; exact hjt⟩
  · have hlt : i < (out ++ [r]).length := by
      rw [List.getElem?_eq_some] at hi
      exact hi.1
    have hieq : i = out.length := by
      simp only [List.length_append, List.length_cons, List.length_nil] at hlt
      omega
    subst hieq
    rw [List.getElem?_concat_length] at hi
    have hrt : TraceRec.txRec t ∈ out := hr t (Option.some.inj hi)
    obtain ⟨j, hj⟩ := List.mem_iff_getElem?.mp hrt
    have hjlen : j < out.length := by
      rw [List.getElem?_eq_some] at hj
      exact hj.1
    exact ⟨j, hjlen, by rw [List.getElem?_append_left hjlen]; exact hj⟩

theorem engineInv_step (st : EngineState) (e : TraceEvent)
    (h : engineInv st) : engineInv (engineStep st e) := by
  obtain ⟨hp, hc⟩ := h
  cases e with
  | txEvent t =>
      by_cases hmem : t ∈ st.pending
      · simpa [engineStep, hmem] using ⟨hp, hc⟩
      · simp only [engineStep, hmem, if_false]
        refine ⟨?_, ?_⟩
        · intro u hu
          rcases List.mem_cons.mp hu with hut | hu'
          · subst hut
            exact List.mem_append_right _ (List.mem_singleton.mpr rfl)
          · exact List.mem_append_left _ (hp u hu')
        · refine causalOk_concat _ _ hc ?_
          intro u h'
          exact absurd h' (by simp)
  | rxEvent t =>
      by_cases hmem : t ∈ st.pending
      · simp only [engineStep, hmem, if_true]
        refine ⟨?_, ?_⟩
        · intro u hu
          exact List.mem_append_left _ (hp u hu)
        · refine causalOk_concat _ _ hc ?_
          intro u h'
          have : t = u := by
            injection h'
          subst this
          exact hp t hmem
      · simpa [engineStep, hmem] using ⟨hp, hc⟩
  | purgeEvent t =>
      simp only [engineStep]
      refine ⟨?_, hc⟩
      intro u hu
      exact hp u (List.mem_of_mem_filter hu)

theorem engineInv_run (evs : List TraceEvent) :
    ∀ st : EngineState, engineInv st → engineInv (evs.foldl engineStep st) := by
  induction evs with
  | nil =>
      intro st h
      simpa using h
  | cons e evs ih =>
      intro st h
      exact ih _ (engineInv_step st e h)

/-! ## Claim theorems -/

/-- C2: in every output the engine can produce from any deliverable event
sequence, a receive-side record carrying token t never appears before the
transmit-side record carrying t: every rx record at position i has a tx
record with the same token at some earlier position j. -/
theorem rx_never_precedes_tx (evs : List TraceEvent) (i t : Nat)
    (h : ((engineRun evs).output)[i]? = some (.rxRec t)) :
    ∃ j, j < i ∧ ((engineRun evs).output)[j]? = some (.txRec t) := by
  have hinv : engineInv (engineRun evs) := by
    apply engineInv_run
    refine ⟨?_, ?_⟩
    · intro u hu
      simp at hu
    · unfold causalOk
      intro i t hi
      simp at hi
  have hco := hinv.2
  unfold causalOk at hco
  exact hco i t h

/-- Witness for C2: the event sequence transmit-then-receive for token 1
emits the rx record at position 1, with its tx record at position 0. -/
theorem rx_never_precedes_tx_witness :
    ∃ j, j < 1 ∧ ((engineRun [.txEvent 1, .rxEvent 1]).output)[j]? =
      some (.txRec 1) :=
  rx_never_precedes_tx [.txEvent 1, .rxEvent 1] 1 1 (by decide)

/-- C1: token tagging is idempotent and injective: tagging an already-tagged
packet returns its token and leaves packet and counter unchanged; tagging an
untagged packet returns the next value of the monotonically increasing
counter; a duplicate (broadcast copy) of a tagged packet yields the same
token rather than a fresh one; and the tokens freshly allocated over any
session are pairwise distinct. -/
theorem tag_idempotent_and_tokens_unique :
    (∀ (s : TagState) (p : Packet) (t : Nat), p.animUidTag = some t →
        tagPacket s p = (t, p, s))
  ∧ (∀ (s : TagState) (p : Packet), p.animUidTag = none →
        (tagPacket s p).1 = s.gAnimUid + 1 ∧
        (tagPacket s p).2.2.gAnimUid = s.gAnimUid + 1)
  ∧ (∀ (s s' : TagState) (p : Packet),
        (tagPacket s' (tagPacket s p).2.1).1 = (tagPacket s p).1)
  ∧ (∀ (s s' : TagState) (p : Packet),
        (tagPacket s' (duplicatePacket (tagPacket s p).2.1)).1 =
          (tagPacket s p).1)
  ∧ (∀ (s : TagState) (ps : List Packet), (runTagSession s ps).Nodup) := by
  refine ⟨?_, ?_, ?_, ?_, fun s ps => runTagSession_nodup ps s⟩
  · intro s p t h
    simp [tagPacket, h]
  · intro s p h
    simp [tagPacket, h]
  · intro s s' p
    cases h : p.animUidTag <;> simp [tagPacket, h, duplicatePacket]
  · intro s s' p
    cases h : p.animUidTag <;> simp [tagPacket, h, duplicatePacket]

/-- Witness for C1 at concrete inputs. -/
theorem tag_idempotent_and_tokens_unique_witness :
    tagPacket { gAnimUid := 7 } { animUidTag := some 3 } =
      (3, { animUidTag := some 3 }, { gAnimUid := 7 })
  ∧ (tagPacket { gAnimUid := 0 } { animUidTag := none }).1 = 1
  ∧ (tagPacket { gAnimUid := 0 } { animUidTag := none }).2.2.gAnimUid = 1 :=
  ⟨tag_idempotent_and_tokens_unique.1 { gAnimUid := 7 } { animUidTag := some 3 } 3 rfl,
   tag_idempotent_and_tokens_unique.2.1 { gAnimUid := 0 } { animUidTag := none } rfl⟩

/-- C3: Purge(maxAge) removes exactly the pending entries whose transmitTime
is older than (currentTime - maxAge): every entry strictly older is removed
and every entry strictly younger is kept. -/
theorem purge_exactly_old_entries (now maxAge : Int)
    (table : List PendingRecord) (r : PendingRecord) (hr : r ∈ table) :
    (r ∈ purgePending now maxAge table ↔ ¬ r.transmitTime < now - maxAge)
  ∧ (r.transmitTime < now - maxAge → r ∉ purgePending now maxAge table)
  ∧ (now - maxAge < r.transmitTime → r ∈ purgePending now maxAge table) := by
  have hmem : r ∈ purgePending now maxAge table ↔ now - r.transmitTime ≤ maxAge := by
    simp [purgePending, List.mem_filter, hr]
  refine ⟨?_, ?_, ?_⟩
  · rw [hmem]; omega
  · intro h; rw [hmem]; omega
  · intro h; rw [hmem]; omega

/-- Witness for C3 at a concrete table: the entry transmitted at time 5 with
current time 100 and maxAge 10 is older than 90 and therefore purged. -/
theorem purge_exactly_old_entries_witness :
    (((⟨1, 0, 5⟩ : PendingRecord) ∈ purgePending 100 10 [⟨1, 0, 5⟩]) ↔
        ¬ (⟨1, 0, 5⟩ : PendingRecord).transmitTime < 100 - 10)
  ∧ ((⟨1, 0, 5⟩ : PendingRecord).transmitTime < 100 - 10 →
        (⟨1, 0, 5⟩ : PendingRecord) ∉ purgePending 100 10 [⟨1, 0, 5⟩])
  ∧ (100 - 10 < (⟨1, 0, 5⟩ : PendingRecord).transmitTime →
        (⟨1, 0, 5⟩ : PendingRecord) ∈ purgePending 100 10 [⟨1, 0, 5⟩]) :=
  purge_exactly_old_entries 100 10 [⟨1, 0, 5⟩] ⟨1, 0, 5⟩ (List.mem_singleton.mpr rfl)

/-- C4: a record is emitted iff the current simulated time lies in the closed
interval [startTime, stopTime]; outside the window the write is suppressed,
and both boundaries are inclusive. -/
theorem record_emitted_iff_in_window (now startTime stopTime : Int)
    (r : TraceRec) :
    (writeGated now startTime stopTime r = some r ↔
        startTime ≤ now ∧ now ≤ stopTime)
  ∧ ((now < startTime ∨ stopTime < now) →
        writeGated now startTime stopTime r = none)
  ∧ (startTime ≤ stopTime →
        writeGated startTime startTime stopTime r = some r ∧
        writeGated stopTime startTime stopTime r = some r) := by
  refine ⟨?_, ?_, ?_⟩
  · by_cases h : startTime ≤ now ∧ now ≤ stopTime
    · simp [writeGated, isInTimeWindow, h.1, h.2]
    · have : ¬ (decide (startTime ≤ now) && decide (now ≤ stopTime)) = true := by
        simpa [Bool.and_eq_true, decide_eq_true_iff] using h
      simp only [writeGated, isInTimeWindow, this, if_false]
      constructor
      · intro hcontra; exact absurd hcontra (by simp)
      · intro hcontra; exact absurd hcontra h
  · intro h
    have : ¬ (startTime ≤ now ∧ now ≤ stopTime) := by omega
    have hb : ¬ (decide (startTime ≤ now) && decide (now ≤ stopTime)) = true := by
      simpa [Bool.and_eq_true, decide_eq_true_iff] using this
    simp [writeGated, isInTimeWindow, hb]
  · intro h
    constructor <;> simp [writeGated, isInTimeWindow, h, le_refl]

/-- Witness for C4: with window [0, 10], a record at time 11 is suppressed
and records at exactly 0 and exactly 10 are emitted. -/
theorem record_emitted_iff_in_window_witness :
    ((11 : Int) < 0 ∨ (10 : Int) < 11 → writeGated 11 0 10 (.txRec 1) = none)
  ∧ ((0 : Int) ≤ 10 →
        writeGated 0 0 10 (.txRec 1) = some (.txRec 1) ∧
        writeGated 10 0 10 (.txRec 1) = some (.txRec 1)) :=
  ⟨(record_emitted_iff_in_window 11 0 10 (.txRec 1)).2.1,
   (record_emitted_iff_in_window 0 0 10 (.txRec 1)).2.2⟩

/-- C5: recording a transmit for a token that already has a pending entry is
a no-op on the table: the table is unchanged and the pre-existing entry is
retained. -/
theorem duplicate_transmit_noop (animUid : Nat)
    (oldInfo newInfo : PendingRecord) (table : List (Nat × PendingRecord))
    (h : table.lookup animUid = some oldInfo) :
    addPendingPacket animUid newInfo table = table
  ∧ (addPendingPacket animUid newInfo table).lookup animUid = some oldInfo := by
  have hs : (table.lookup animUid).isSome := by rw [h]; rfl
  refine ⟨?_, ?_⟩
  · simp [addPendingPacket, hs]
  · simp [addPendingPacket, hs, h]

/-- Witness for C5: adding token 4 again to a table already holding an entry
for token 4 leaves the table, and the original entry, unchanged. -/
theorem duplicate_transmit_noop_witness :
    addPendingPacket 4 ⟨4, 9, 9⟩ [(4, ⟨4, 1, 2⟩)] = [(4, ⟨4, 1, 2⟩)]
  ∧ (addPendingPacket 4 ⟨4, 9, 9⟩ [(4, ⟨4, 1, 2⟩)]).lookup 4 = some ⟨4, 1, 2⟩ :=
  duplicate_transmit_noop 4 ⟨4, 1, 2⟩ ⟨4, 9, 9⟩ [(4, ⟨4, 1, 2⟩)] rfl

/-- C6: once exactly maxPktsPerFile packet records have been written to the
current file, the next packet record closes that file (recording exactly
maxPktsPerFile records in it), moves to the file with the next integer
suffix, and restarts the per-file counter (reset to zero, then the record
just written makes it 1); below the threshold no rotation happens. -/
theorem file_rotation_at_threshold (w : WriterState)
    (h : w.currentPktCount = w.maxPktsPerFile) :
    (writePacketRecord w).fileIndex = w.fileIndex + 1
  ∧ (writePacketRecord w).currentPktCount = 1
  ∧ (writePacketRecord w).closedFiles =
      w.closedFiles ++ [(traceFileName w.originalFileName w.fileIndex, w.maxPktsPerFile)]
  ∧ traceFileName w.originalFileName (w.fileIndex + 1) =
      w.originalFileName ++ "-" ++ toString (w.fileIndex + 1)
  ∧ (∀ w' : WriterState, w'.currentPktCount < w'.maxPktsPerFile →
      (writePacketRecord w').fileIndex = w'.fileIndex ∧
      (writePacketRecord w').currentPktCount = w'.currentPktCount + 1 ∧
      (writePacketRecord w').closedFiles = w'.closedFiles) := by
  have hc : w.maxPktsPerFile ≤ w.currentPktCount := le_of_eq h.symm
  refine ⟨?_, ?_, ?_, ?_, ?_⟩
  · simp [writePacketRecord, hc]
  · simp [writePacketRecord, hc]
  · simp [writePacketRecord, hc, h]
  · simp [traceFileName]
  · intro w' h'
    have hn : ¬ w'.maxPktsPerFile ≤ w'.currentPktCount := not_le.mpr h'
    refine ⟨?_, ?_, ?_⟩ <;> simp [writePacketRecord, hn]

/-- Witness for C6: a writer configured for 2 packets per file that has
written 2 records rotates on the next record. -/
theorem file_rotation_at_threshold_witness :
    (writePacketRecord ⟨"anim", 2, 0, 2, []⟩).fileIndex = 0 + 1
  ∧ (writePacketRecord ⟨"anim", 2, 0, 2, []⟩).currentPktCount = 1
  ∧ (writePacketRecord ⟨"anim", 2, 0, 2, []⟩).closedFiles =
      [] ++ [(traceFileName "anim" 0, 2)]
  ∧ traceFileName "anim" (0 + 1) = "anim" ++ "-" ++ toString (0 + 1)
  ∧ (∀ w' : WriterState, w'.currentPktCount < w'.maxPktsPerFile →
      (writePacketRecord w').fileIndex = w'.fileIndex ∧
      (writePacketRecord w').currentPktCount = w'.currentPktCount + 1 ∧
      (writePacketRecord w').closedFiles = w'.closedFiles) :=
  file_rotation_at_threshold ⟨"anim", 2, 0, 2, []⟩ rfl

/-- C7: querying the position of a node with no cached position fails with
MissingPosition when random fallback is disabled, and with fallback enabled
synthesizes a position within the current topology bounds, caches it, and
returns it. -/
theorem getPosition_missing_or_fallback (cache : List (Nat × Vec3))
    (b : TopoBounds) (rx ry : Nat) (nodeId : Nat)
    (hbx : b.minX ≤ b.maxX) (hby : b.minY ≤ b.maxY)
    (habsent : cache.lookup nodeId = none) :
    getPosition cache false b rx ry nodeId = .error .missingPosition
  ∧ (∃ v, getPosition cache true b rx ry nodeId = .ok (v, (nodeId, v) :: cache)
      ∧ b.minX ≤ v.x ∧ v.x ≤ b.maxX ∧ b.minY ≤ v.y ∧ v.y ≤ b.maxY
      ∧ ((nodeId, v) :: cache).lookup nodeId = some v) := by
  have h1 : rx % ((b.maxX - b.minX).toNat + 1) ≤ (b.maxX - b.minX).toNat :=
    Nat.lt_succ_iff.mp (Nat.mod_lt _ (Nat.succ_pos _))
  have h2 : ry % ((b.maxY - b.minY).toNat + 1) ≤ (b.maxY - b.minY).toNat :=
    Nat.lt_succ_iff.mp (Nat.mod_lt _ (Nat.succ_pos _))
  refine ⟨?_, synthesizePosition b rx ry, ?_, ?_, ?_, ?_, ?_, ?_⟩
  · simp [getPosition, habsent]
  · simp [getPosition, habsent]
  · simp only [synthesizePosition]
    generalize rx % ((b.maxX - b.minX).toNat + 1) = m at h1 ⊢
    omega
  · simp only [synthesizePosition]
    generalize rx % ((b.maxX - b.minX).toNat + 1) = m at h1 ⊢
    omega
  · simp only [synthesizePosition]
    generalize ry % ((b.maxY - b.minY).toNat + 1) = m at h2 ⊢
    omega
  · simp only [synthesizePosition]
    generalize ry % ((b.maxY - b.minY).toNat + 1) = m at h2 ⊢
    omega
  · simp [List.lookup]

/-- Witness for C7: node 5 with an empty cache and bounds [0,10]x[0,10]. -/
theorem getPosition_missing_or_fallback_witness :
    getPosition [] false ⟨0, 0, 10, 10⟩ 3 7 5 = .error .missingPosition
  ∧ (∃ v, getPosition [] true ⟨0, 0, 10, 10⟩ 3 7 5 = .ok (v, (5, v) :: [])
      ∧ (0 : Int) ≤ v.x ∧ v.x ≤ 10 ∧ (0 : Int) ≤ v.y ∧ v.y ≤ 10
      ∧ ((5, v) :: []).lookup 5 = some v) :=
  getPosition_missing_or_fallback [] ⟨0, 0, 10, 10⟩ 3 7 5
    (by decide) (by decide) rfl

/-- C8: constructing the interface with only a file name takes the default
maxPktsPerFile, which equals the MAX_PKTS_PER_TRACE_FILE macro value
100000. -/
theorem default_maxPktsPerFile (filename : String) :
    (mkAnimationInterfaceDefault filename).m_maxPktsPerFile = 100000
  ∧ MAX_PKTS_PER_TRACE_FILE = 100000 :=
  ⟨rfl, rfl⟩

/-- C9: converting a TocinoAddress to a generic Address and back restores an
address with the same raw 32-bit value and hence the same x, y, z and
reserved components. -/
theorem tocino_address_roundtrip (a : TocinoAddress)
    (h : a.raw < 4294967296) :
    ∃ a', tocinoConvertFrom (tocinoConvertTo a) = some a'
      ∧ a'.raw = a.raw ∧ tocinoX a' = tocinoX a ∧ tocinoY a' = tocinoY a
      ∧ tocinoZ a' = tocinoZ a ∧ tocinoReserved a' = tocinoReserved a := by
  obtain ⟨raw⟩ := a
  refine ⟨⟨raw⟩, ?_, rfl, rfl, rfl, rfl, rfl⟩
  simp only [tocinoConvertFrom, tocinoConvertTo, checkCompatible, rawBytesLE,
    bytesToRawLE, List.length_cons, List.length_nil]
  norm_num
  simp only [TocinoAddress.mk.injEq] at h ⊢
  omega

/-- Witness for C9 at the concrete address 0x01020304. -/
theorem tocino_address_roundtrip_witness :
    ∃ a', tocinoConvertFrom (tocinoConvertTo ⟨16909060⟩) = some a'
      ∧ a'.raw = TocinoAddress.raw ⟨16909060⟩
      ∧ tocinoX a' = tocinoX ⟨16909060⟩ ∧ tocinoY a' = tocinoY ⟨16909060⟩
      ∧ tocinoZ a' = tocinoZ ⟨16909060⟩
      ∧ tocinoReserved a' = tocinoReserved ⟨16909060⟩ :=
  tocino_address_roundtrip ⟨16909060⟩ (by decide)

/-- C10: AsMacAddress is a constant function: it returns the stubbed value
Mac48Address(0) regardless of the stored address components. -/
theorem asMacAddress_constant (a b : TocinoAddress) :
    tocinoAsMacAddress a = tocinoAsMacAddress b :=
  rfl
